import Mathlib

/-!
# netns example: namespace resolver and per-namespace monitor

A shallow embedding of `src/example/main.go`.

* Go strings are byte sequences (`GoString`); slicing and `strings.Split`
  work on bytes.
* `int` is the 64-bit Go `int`; values are held in `Int` and the only place
  where the width matters is the range check of `strconv.Atoi`.
* A Go `map[int]int` is an association list without duplicate keys; the
  order of its entries carries no meaning (Go iterates maps in an
  unspecified order), so two maps are the same mapping when every key looks
  up to the same value.
* The operating system is an input: every path returned by `filepath.Glob`
  comes with the outcome of `os.Readlink` on its `ns/net` link, handle
  acquisition is a function of the pid, and a monitor task is run against
  the sequence of situations its `select` statement meets.
-/

namespace Netns

/-! ## Strings and the library functions used by `getNsMap` -/

/-- A Go string: an immutable sequence of bytes. -/
abbrev GoString := List UInt8

/-- The bytes (UTF-8) of a literal. -/
def goStr (s : String) : GoString := s.toList.flatMap String.utf8EncodeChar

/-- Go `strings.Split(s, sep)` for a one-byte separator: the pieces of `s`
between the occurrences of `sep`; always at least one piece. -/
def stringsSplit (sep : UInt8) : GoString → List GoString
  | [] => [[]]
  | c :: cs =>
    if c = sep then [] :: stringsSplit sep cs
    else
      match stringsSplit sep cs with
      | [] => [[c]]
      | p :: ps => (c :: p) :: ps

/-- Go `filepath.Split(path)` on Unix: the path is cut right after its last
`/`; the result is `(dir, file)`. -/
def filepathSplit (path : GoString) : GoString × GoString :=
  let file := (path.reverse.takeWhile (fun c => c != 47)).reverse
  (path.take (path.length - file.length), file)

/-- Go slice expression `s[lo:hi]` on a string: a run-time panic (`none`)
unless `0 ≤ lo ≤ hi ≤ len(s)`. The bounds are signed, as in the source
expression `len(s)-1`. -/
def sliceStr (s : GoString) (lo hi : Int) : Option GoString :=
  if 0 ≤ lo ∧ lo ≤ hi ∧ hi ≤ (s.length : Int) then
    some ((s.drop lo.toNat).take (hi.toNat - lo.toNat))
  else none

/-- The width of Go `int` on the 64-bit platforms the program runs on. -/
def intSize : Nat := 64

/-- Largest `int`. -/
def maxInt : Int := 2 ^ (intSize - 1) - 1

/-- Smallest `int`. -/
def minInt : Int := -(2 ^ (intSize - 1))

/-- Whether a byte is an ASCII decimal digit. -/
def isDigit (c : UInt8) : Bool := 48 ≤ c.toNat && c.toNat ≤ 57

/-- The value of a run of decimal digits, most significant first. -/
def digitsValue (ds : GoString) : Nat :=
  ds.foldl (fun n c => n * 10 + (c.toNat - 48)) 0

/-- Go `strconv.Atoi`: an optional sign `+` or `-`, then one or more decimal
digits, and the value must fit in an `int`; anything else is an error
(`none`). -/
def Atoi (s : GoString) : Option Int :=
  let neg : Bool := s.head? = some 45
  let ds : GoString := if s.head? = some 45 ∨ s.head? = some 43 then s.drop 1 else s
  if ds = [] then none
  else if ds.all isDigit then
    let v : Int := if neg then -(digitsValue ds : Int) else (digitsValue ds : Int)
    if minInt ≤ v ∧ v ≤ maxInt then some v else none
  else none

/-! ## The namespace map -/

/-- Go `type NsMap map[int]int`: namespace identifier ↦ representative pid. -/
abbrev NsMap := List (Int × Int)

/-- Go `v, ok := m[k]`. -/
def NsMap.get (m : NsMap) (k : Int) : Option Int :=
  match m with
  | [] => none
  | (k', v) :: rest => if k' = k then some v else NsMap.get rest k

/-- Go `m[k] = v`: overwrite the entry of `k`, or add one. -/
def NsMap.set (m : NsMap) (k v : Int) : NsMap :=
  match m with
  | [] => [(k, v)]
  | (k', v') :: rest => if k' = k then (k, v) :: rest else (k', v') :: NsMap.set rest k v

/-- The keys of a map. -/
def NsMap.keys (m : NsMap) : List Int := m.map Prod.fst

/-! ## `getNsMap` -/

/-- One path returned by `filepath.Glob("/proc/[0-9]*")`, with the outcome of
`os.Readlink(procPath + "/ns/net")` at the moment the loop reaches it
(`none`: Readlink returned an error). -/
structure ProcEntry where
  procPath : GoString
  nsLink : Option GoString
  deriving DecidableEq, Repr

/-- The lines written by `log.Println` in `getNsMap`, by call site. -/
inductive ScanLog where
  | globErr
  | readlinkErr
  | atoiPidErr
  | atoiIdentifierErr
  deriving DecidableEq, Repr

/-- The state of the loop of `getNsMap`: the map built so far and the lines
logged so far. -/
structure ScanState where
  m : NsMap
  log : List ScanLog
  deriving DecidableEq, Repr

/-- What lines 29-47 make of one path: a run-time panic (index or slice
bounds out of range), a logged `continue`, or a pid and an identifier. -/
inductive Parsed where
  | panic
  | skip (line : ScanLog)
  | record (pid identifier : Int)
  deriving DecidableEq, Repr

/-- Lines 29-47 of `getNsMap`, in source order: `filepath.Split`,
`os.Readlink`, `strings.Split(identifierStr, ":")[1]`,
`identifierStr[1 : len(identifierStr)-1]`, `Atoi(pidStr)`,
`Atoi(identifierStr)`. -/
def parseEntry (e : ProcEntry) : Parsed :=
  let pidStr := (filepathSplit e.procPath).2
  match e.nsLink with
  | none => Parsed.skip ScanLog.readlinkErr
  | some identifierStr =>
    match (stringsSplit 58 identifierStr)[1]? with
    | none => Parsed.panic
    | some identifierStr =>
      match sliceStr identifierStr 1 ((identifierStr.length : Int) - 1) with
      | none => Parsed.panic
      | some identifierStr =>
        match Atoi pidStr with
        | none => Parsed.skip ScanLog.atoiPidErr
        | some pid =>
          match Atoi identifierStr with
          | none => Parsed.skip ScanLog.atoiIdentifierErr
          | some identifier => Parsed.record pid identifier

/-- Lines 48-51 of `getNsMap`: `v, ok := m[identifier]` and then
`if !ok || pid < v { m[identifier] = pid }`. -/
def lowestPidWins (m : NsMap) (pid identifier : Int) : NsMap :=
  match m.get identifier with
  | none => m.set identifier pid
  | some v => if pid < v then m.set identifier pid else m

/-- One iteration of the `for` loop of `getNsMap` (lines 28-52).
`none` is a run-time panic. -/
def loopBody (st : ScanState) (e : ProcEntry) : Option ScanState :=
  match parseEntry e with
  | Parsed.panic => none
  | Parsed.skip line => some { st with log := st.log ++ [line] }
  | Parsed.record pid identifier =>
    some { st with m := lowestPidWins st.m pid identifier }

/-- The `for` loop of `getNsMap` over the globbed paths. -/
def scanLoop (st : ScanState) : List ProcEntry → Option ScanState
  | [] => some st
  | e :: es =>
    match loopBody st e with
    | none => none
    | some st' => scanLoop st' es

/-- How a call of `getNsMap` ends. -/
inductive NsMapResult where
  /-- Normal return, `return m, nil`. -/
  | ok (m : NsMap) (log : List ScanLog)
  /-- Error return, `return nil, err`. -/
  | error (log : List ScanLog)
  /-- A run-time panic inside the loop. -/
  | panic
  deriving DecidableEq, Repr

/-- Go `getNsMap`. The argument is the result of `filepath.Glob`: `none` for an
error, otherwise the paths, each with its Readlink outcome. -/
def getNsMap (glob : Option (List ProcEntry)) : NsMapResult :=
  match glob with
  | none => NsMapResult.error [ScanLog.globErr]
  | some procPaths =>
    match scanLoop { m := [], log := [] } procPaths with
    | none => NsMapResult.panic
    | some st => NsMapResult.ok st.m st.log

/-- The `/proc` entry of a process `pid` whose `ns/net` link reads `link`. -/
def procEntry (pid : String) (link : String) : ProcEntry :=
  { procPath := goStr "/proc/" ++ goStr pid, nsLink := some (goStr link) }

/-- The scan of the scenario `{pid=10,ns=100}, {pid=5,ns=100}, {pid=7,ns=200}`:
the paths `/proc/10`, `/proc/5`, `/proc/7` with the links the kernel shows. -/
def scenario : List ProcEntry :=
  [procEntry "10" "net:[100]", procEntry "5" "net:[100]", procEntry "7" "net:[200]"]

/-- The lowest-pid-wins update folded over already parsed records
`(pid, identifier)`, starting from the map `m`. -/
def foldRecords (m : NsMap) (recs : List (Int × Int)) : NsMap :=
  recs.foldl (fun acc r => lowestPidWins acc r.1 r.2) m

/-- The representative of identifier `k` after one more record `r = (pid,
identifier)`, given its representative `acc` so far (`none`: no entry). -/
def choose (k : Int) (acc : Option Int) (r : Int × Int) : Option Int :=
  if r.2 = k then
    match acc with
    | none => some r.1
    | some v => if r.1 < v then some r.1 else some v
  else acc

/-- The records `(pid, identifier)` of the paths that parse, in scan order. -/
def parsedRecords (procPaths : List ProcEntry) : List (Int × Int) :=
  procPaths.filterMap fun e =>
    match parseEntry e with
    | Parsed.record pid identifier => some (pid, identifier)
    | _ => none

/-- The lines logged for the paths that are skipped, in scan order. -/
def skipLines (procPaths : List ProcEntry) : List ScanLog :=
  procPaths.filterMap fun e =>
    match parseEntry e with
    | Parsed.skip line => some line
    | _ => none

/-- The decimal digits of `n` as ASCII bytes, most significant first, the way
the kernel prints an inode number. -/
def decimal (n : Nat) : GoString :=
  if n = 0 then [48] else (Nat.digits 10 n).reverse.map fun d => UInt8.ofNat (48 + d)

/-- The target of `/proc/<pid>/ns/net` for the namespace with inode `n`:
`net:[n]`. -/
def netLink (n : Nat) : GoString := goStr "net:[" ++ decimal n ++ goStr "]"

/-- Two results of `getNsMap` that are the same mapping: both panic, both
fail, or both return maps on which every identifier looks up the same. -/
def NsMapResult.sameMapping : NsMapResult → NsMapResult → Prop
  | NsMapResult.ok m _, NsMapResult.ok m' _ => ∀ k, m.get k = m'.get k
  | NsMapResult.error _, NsMapResult.error _ => True
  | NsMapResult.panic, NsMapResult.panic => True
  | _, _ => False

/-! ## `getInterfaces`: one monitor task -/

/-- Go `netns.NsHandle`: a file descriptor. -/
abbrev NsHandle := Int

/-- The observable actions of a monitor task, in program order. -/
inductive Ev where
  /-- Call of `runtime.LockOSThread()`. -/
  | lockOSThread
  /-- Call of `runtime.UnlockOSThread()`. -/
  | unlockOSThread
  /-- Call of `netns.Set(handle)`. -/
  | setNs (handle : NsHandle)
  /-- Line 63, `log.Println(err)` after a failed `netns.Set`. -/
  | logSetErr
  /-- Call of `handle.Close()`. -/
  | close (handle : NsHandle)
  /-- Call of `time.NewTimer(d)`, `d` in nanoseconds. -/
  | newTimer (d : Nat)
  /-- The `select` took `case <-ctx.Done()`. -/
  | recvDone
  /-- The `select` took `case <-timer.C`. -/
  | recvTimer
  /-- Call of `net.Interfaces()`. -/
  | interfaces
  /-- Line 77, `log.Printf` of the interface listing, tagged with the identifier. -/
  | logInterfaces (identifier : Int)
  deriving DecidableEq, Repr

/-- Go `time.Second * 3` as a `time.Duration` (nanoseconds). -/
def sleepTime : Nat := 1000000000 * 3

/-- The situation met by one execution of the `select` statement. -/
structure SelectEnv where
  /-- Whether `ctx.Done()` is ready (the context has been cancelled). -/
  doneReady : Bool
  /-- Whether `timer.C` is ready (the current timer has fired). -/
  timerReady : Bool
  /-- The pseudo-random choice Go makes when both cases are ready. -/
  pickDone : Bool
  /-- Whether `net.Interfaces()` returns without error if it is called now. -/
  listOk : Bool
  deriving DecidableEq, Repr

/-- The case a `select` proceeds with. -/
inductive Branch where
  | done
  | tick
  | blocked
  deriving DecidableEq, Repr

/-- Go `select` over `<-ctx.Done()` and `<-timer.C`: a ready case is taken; when
both are ready one is chosen at random; when none is ready the task stays
blocked. -/
def selectBranch (e : SelectEnv) : Branch :=
  if e.doneReady && e.timerReady then (if e.pickDone then Branch.done else Branch.tick)
  else if e.doneReady then Branch.done
  else if e.timerReady then Branch.tick
  else Branch.blocked

/-- A monitor task: what it has done so far, its pending deferred calls (most
recent first) and whether the function has returned. -/
structure Task where
  trace : List Ev
  defers : List Ev
  returned : Bool
  deriving DecidableEq, Repr

/-- Go `return`: the deferred calls run, last deferred first. -/
def Task.ret (t : Task) : Task :=
  { trace := t.trace ++ t.defers, defers := [], returned := true }

/-- One execution of the `select` statement in the loop of `getInterfaces`
(lines 70-81). A task that has returned does nothing more. -/
def loopStep (identifier : Int) (t : Task) (e : SelectEnv) : Task :=
  if t.returned then t
  else
    match selectBranch e with
    | Branch.blocked => t
    | Branch.done => Task.ret { t with trace := t.trace ++ [Ev.recvDone] }
    | Branch.tick =>
      let t1 : Task := { t with trace := t.trace ++ [Ev.recvTimer, Ev.interfaces] }
      let t2 : Task :=
        if e.listOk then { t1 with trace := t1.trace ++ [Ev.logInterfaces identifier] } else t1
      { t2 with trace := t2.trace ++ [Ev.newTimer sleepTime] }

/-- Go `getInterfaces(ctx, handle, identifier)`, run against the outcome of
`netns.Set` and the situations met by the successive `select`s. -/
def getInterfaces (setOk : Bool) (handle : NsHandle) (identifier : Int)
    (sched : List SelectEnv) : Task :=
  let t0 : Task :=
    { trace := [Ev.lockOSThread], defers := [Ev.unlockOSThread], returned := false }
  let t1 : Task := { t0 with trace := t0.trace ++ [Ev.setNs handle] }
  if !setOk then
    Task.ret { t1 with trace := t1.trace ++ [Ev.logSetErr] }
  else
    let t2 : Task := { t1 with defers := Ev.close handle :: t1.defers }
    let t3 : Task := { t2 with trace := t2.trace ++ [Ev.newTimer sleepTime] }
    sched.foldl (loopStep identifier) t3

/-- Whether an action is a call of `handle.Close()`. -/
def Ev.isClose : Ev → Bool
  | Ev.close _ => true
  | _ => false

/-- Whether an action writes a line to the log. -/
def Ev.isLog : Ev → Bool
  | Ev.logSetErr => true
  | Ev.logInterfaces _ => true
  | _ => false

/-- The number of calls of `handle.Close()` in a trace. -/
def closeCount (tr : List Ev) : Nat := tr.countP Ev.isClose

/-- The number of calls of `net.Interfaces()` in a trace: the tick branches
executed. -/
def tickCount (tr : List Ev) : Nat := tr.count Ev.interfaces

/-- The situation in which the context is cancelled and the timer has fired,
and the `select` picks the timer. -/
def bothReadyPickTimer : SelectEnv :=
  { doneReady := true, timerReady := true, pickDone := false, listOk := true }

/-- The situation in which only the timer has fired and `net.Interfaces()`
returns an error. -/
def tickListingFails : SelectEnv :=
  { doneReady := false, timerReady := true, pickDone := false, listOk := false }

/-- The situation in which only the context is cancelled. -/
def onlyDoneReady : SelectEnv :=
  { doneReady := true, timerReady := false, pickDone := false, listOk := true }

/-- The state of a task that entered its namespace: either it is in the loop,
has closed nothing and holds the two deferred calls, or it has returned and
its trace ends with the receive from `ctx.Done()`, the single `Close` and the
thread unlock. -/
def Task.wellFormed (handle : NsHandle) (t : Task) : Prop :=
  (t.returned = false ∧ t.defers = [Ev.close handle, Ev.unlockOSThread] ∧
      closeCount t.trace = 0) ∨
    (t.returned = true ∧ t.defers = [] ∧
      ∃ pre, t.trace = pre ++ [Ev.recvDone, Ev.close handle, Ev.unlockOSThread] ∧
        closeCount pre = 0)

/-! ## `main`: starting the monitors -/

/-- What the loop of `main` has done: the lines logged for failed
acquisitions and the `go getInterfaces(ctx, handle, netIdentifier)` statements
executed, as `(netIdentifier, handle)`. -/
structure Supervisor where
  /-- Line 106: `(netIdentifier, pid)` of each failed acquisition. -/
  failed : List (Int × Int)
  /-- Line 109: the monitors started. -/
  started : List (Int × NsHandle)
  deriving DecidableEq, Repr

/-- One iteration of `for netIdentifier, pid := range m` in `main`
(lines 103-110). `getFromPid` is `netns.GetFromPid`, `none` for an error. -/
def superviseStep (getFromPid : Int → Option NsHandle) (s : Supervisor)
    (entry : Int × Int) : Supervisor :=
  match getFromPid entry.2 with
  | none => { s with failed := s.failed ++ [(entry.1, entry.2)] }
  | some handle => { s with started := s.started ++ [(entry.1, handle)] }

/-- The `range` loop of `main` over the entries of the map, in the order Go
happens to visit them (the order of the list). -/
def superviseLoop (getFromPid : Int → Option NsHandle) (m : NsMap) : Supervisor :=
  m.foldl (superviseStep getFromPid) { failed := [], started := [] }

/-- How `main` ends up once its loop is over. -/
inductive MainResult where
  /-- `getNsMap` returned an error: logged, `main` returns. -/
  | noMap
  /-- `getNsMap` panicked. -/
  | crashed
  /-- The count was logged and the loop ran. -/
  | supervising (count : Nat) (s : Supervisor)
  deriving DecidableEq, Repr

/-- Go `main` up to the wait on `ctx.Done()`. -/
def main (glob : Option (List ProcEntry)) (getFromPid : Int → Option NsHandle) : MainResult :=
  match getNsMap glob with
  | NsMapResult.error _ => MainResult.noMap
  | NsMapResult.panic => MainResult.crashed
  | NsMapResult.ok m _ => MainResult.supervising m.length (superviseLoop getFromPid m)

/-- An acquisition that fails for pid 5 and gives the descriptor `pid + 1`
for every other pid. -/
def getFromPidExcept5 (pid : Int) : Option NsHandle :=
  if pid = 5 then none else some (pid + 1)

/-! ## Facts about the map operations -/

theorem NsMap.get_set_self (m : NsMap) (k v : Int) : (NsMap.set m k v).get k = some v := by
  induction m with
  | nil => simp [NsMap.set, NsMap.get]
  | cons hd tl ih =>
    obtain ⟨k', v'⟩ := hd
    by_cases h : k' = k
    · simp [NsMap.set, NsMap.get, h]
    · simp [NsMap.set, NsMap.get, h, ih]

theorem NsMap.get_set_ne (m : NsMap) (k v j : Int) (hj : j ≠ k) :
    (NsMap.set m k v).get j = m.get j := by
  induction m with
  | nil =>
    have : ¬ k = j := fun h => hj h.symm
    simp [NsMap.set, NsMap.get, this]
  | cons hd tl ih =>
    obtain ⟨k', v'⟩ := hd
    by_cases h : k' = k
    · have : ¬ k = j := fun h => hj h.symm
      simp [NsMap.set, NsMap.get, h, this]
    · by_cases h2 : k' = j
      · subst h2
        simp [NsMap.set, NsMap.get, h]
      · simp [NsMap.set, NsMap.get, h, h2, ih]

theorem NsMap.get_eq_none_iff (m : NsMap) (k : Int) : m.get k = none ↔ k ∉ m.keys := by
  induction m with
  | nil => simp [NsMap.get, NsMap.keys]
  | cons hd tl ih =>
    obtain ⟨k', v'⟩ := hd
    by_cases h : k' = k
    · simp [NsMap.get, NsMap.keys, h]
    · have h' : ¬ k = k' := fun e => h e.symm
      simp only [NsMap.keys] at ih
      simp [NsMap.get, NsMap.keys, h, h', ih]

theorem NsMap.mem_of_get (m : NsMap) (k v : Int) (h : m.get k = some v) : (k, v) ∈ m := by
  induction m with
  | nil => simp [NsMap.get] at h
  | cons hd tl ih =>
    obtain ⟨k', v'⟩ := hd
    by_cases hk : k' = k
    · simp [NsMap.get, hk] at h
      simp [hk, h]
    · simp [NsMap.get, hk] at h
      exact List.mem_cons_of_mem _ (ih h)

theorem NsMap.get_of_mem (m : NsMap) (hm : m.keys.Nodup) (k v : Int) (h : (k, v) ∈ m) :
    m.get k = some v := by
  induction m with
  | nil => simp at h
  | cons hd tl ih =>
    obtain ⟨k', v'⟩ := hd
    simp only [NsMap.keys, List.map_cons, List.nodup_cons] at hm
    rcases List.mem_cons.1 h with h1 | h1
    · cases h1
      simp [NsMap.get]
    · have hne : ¬ k' = k := by
        intro e
        apply hm.1
        rw [e]
        exact List.mem_map_of_mem Prod.fst h1
      simp only [NsMap.get, hne, if_false]
      exact ih hm.2 h1

theorem NsMap.keys_set (m : NsMap) (k v : Int) :
    (NsMap.set m k v).keys = if k ∈ m.keys then m.keys else m.keys ++ [k] := by
  induction m with
  | nil => simp [NsMap.set, NsMap.keys]
  | cons hd tl ih =>
    obtain ⟨k', v'⟩ := hd
    by_cases h : k' = k
    · simp [NsMap.set, NsMap.keys, h]
    · have h' : ¬ k = k' := fun e => h e.symm
      simp only [NsMap.keys] at ih
      by_cases hk : k ∈ List.map Prod.fst tl
      · simp [NsMap.set, NsMap.keys, h, h', ih, hk]
      · simp [NsMap.set, NsMap.keys, h, h', ih, hk]

theorem NsMap.nodup_keys_set (m : NsMap) (k v : Int) (hm : m.keys.Nodup) :
    (NsMap.set m k v).keys.Nodup := by
  rw [NsMap.keys_set]
  by_cases hk : k ∈ m.keys
  · simpa [hk] using hm
  · simp only [hk, if_false]
    exact List.Nodup.append hm (List.nodup_singleton k) (by simpa using hk)

theorem NsMap.mem_keys_set (m : NsMap) (k v j : Int) :
    j ∈ (NsMap.set m k v).keys ↔ j = k ∨ j ∈ m.keys := by
  rw [NsMap.keys_set]
  by_cases hk : k ∈ m.keys
  · simp only [hk, if_true]
    constructor
    · exact Or.inr
    · rintro (h | h)
      · exact h ▸ hk
      · exact h
  · simp only [hk, if_false, List.mem_append, List.mem_singleton]
    tauto

/-! ## The fold of the lowest-pid-wins update -/

theorem get_lowestPidWins (m : NsMap) (pid identifier k : Int) :
    (lowestPidWins m pid identifier).get k = choose k (m.get k) (pid, identifier) := by
  unfold lowestPidWins choose
  by_cases hk : identifier = k
  · subst hk
    cases hg : m.get identifier with
    | none => simp [NsMap.get_set_self]
    | some v =>
      by_cases hlt : pid < v
      · simp [hlt, NsMap.get_set_self]
      · simp [hlt, hg]
  · have hk' : k ≠ identifier := fun e => hk e.symm
    cases hg : m.get identifier with
    | none => simp [hk, NsMap.get_set_ne _ _ _ _ hk']
    | some v =>
      by_cases hlt : pid < v
      · simp [hlt, hk, NsMap.get_set_ne _ _ _ _ hk']
      · simp [hlt, hk]

theorem get_foldRecords (recs : List (Int × Int)) (m : NsMap) (k : Int) :
    (foldRecords m recs).get k = recs.foldl (choose k) (m.get k) := by
  induction recs generalizing m with
  | nil => simp [foldRecords]
  | cons r rs ih =>
    have := ih (lowestPidWins m r.1 r.2)
    simp only [foldRecords, List.foldl_cons] at this ⊢
    rw [this, get_lowestPidWins]

theorem choose_comm (k : Int) (a : Option Int) (r s : Int × Int) :
    choose k (choose k a r) s = choose k (choose k a s) r := by
  unfold choose
  by_cases hr : r.2 = k <;> by_cases hs : s.2 = k <;> simp only [hr, hs, if_true, if_false]
  cases a with
  | none =>
    simp only
    split_ifs <;> first | rfl | (congr 1; omega)
  | some v =>
    by_cases h1 : r.1 < v <;> by_cases h2 : s.1 < v <;>
      by_cases h3 : s.1 < r.1 <;> by_cases h4 : r.1 < s.1 <;>
      simp only [h1, h2, h3, h4, if_true, if_false] <;>
      first | rfl | (congr 1; omega)

theorem foldl_choose_perm (k : Int) {l l' : List (Int × Int)} (h : l.Perm l')
    (a : Option Int) : l.foldl (choose k) a = l'.foldl (choose k) a := by
  haveI : RightCommutative (choose k) := ⟨fun a r s => choose_comm k a r s⟩
  exact h.foldl_eq a

theorem foldl_choose_none (k : Int) (recs : List (Int × Int)) (a : Option Int) :
    recs.foldl (choose k) a = none ↔ a = none ∧ ∀ r ∈ recs, r.2 ≠ k := by
  induction recs generalizing a with
  | nil => simp
  | cons r rs ih =>
    rw [List.foldl_cons, ih]
    by_cases hr : r.2 = k
    · cases a with
      | none => simp [choose, hr]
      | some v =>
        by_cases hlt : r.1 < v <;> simp [choose, hr, hlt]
    · simp [choose, hr]

theorem foldl_choose_some (k : Int) (recs : List (Int × Int)) (a : Option Int) (p : Int)
    (h : recs.foldl (choose k) a = some p) :
    (a = some p ∨ (p, k) ∈ recs) ∧ (∀ v, a = some v → p ≤ v) ∧
      ∀ q, (q, k) ∈ recs → p ≤ q := by
  induction recs generalizing a with
  | nil =>
    simp only [List.foldl_nil] at h
    subst h
    simp
  | cons r rs ih =>
    rw [List.foldl_cons] at h
    obtain ⟨h1, h2, h3⟩ := ih _ h
    obtain ⟨rp, ri⟩ := r
    by_cases hr : ri = k
    · subst hr
      cases a with
      | none =>
        simp only [choose, if_true] at h1 h2
        have hp : p ≤ rp := h2 rp rfl
        refine ⟨?_, ?_, ?_⟩
        · rcases h1 with h1 | h1
          · right
            simp only [Option.some.injEq] at h1
            subst h1
            exact List.mem_cons_self _ _
          · right
            exact List.mem_cons_of_mem _ h1
        · intro v hv
          cases hv
        · intro q hq
          rcases List.mem_cons.1 hq with e | e
          · cases e
            exact hp
          · exact h3 q e
      | some v =>
        by_cases hlt : rp < v
        · simp only [choose, if_true, hlt] at h1 h2
          have hp : p ≤ rp := h2 rp rfl
          refine ⟨?_, ?_, ?_⟩
          · rcases h1 with h1 | h1
            · right
              simp only [Option.some.injEq] at h1
              subst h1
              exact List.mem_cons_self _ _
            · right
              exact List.mem_cons_of_mem _ h1
          · intro w hw
            simp only [Option.some.injEq] at hw
            omega
          · intro q hq
            rcases List.mem_cons.1 hq with e | e
            · cases e
              exact hp
            · exact h3 q e
        · simp only [choose, if_true, hlt, if_false] at h1 h2
          have hp : p ≤ v := h2 v rfl
          refine ⟨?_, ?_, ?_⟩
          · rcases h1 with h1 | h1
            · left
              exact h1
            · right
              exact List.mem_cons_of_mem _ h1
          · intro w hw
            simp only [Option.some.injEq] at hw
            omega
          · intro q hq
            rcases List.mem_cons.1 hq with e | e
            · cases e
              omega
            · exact h3 q e
    · simp only [choose, hr, if_false] at h1 h2
      refine ⟨?_, h2, ?_⟩
      · rcases h1 with h1 | h1
        · left
          exact h1
        · right
          exact List.mem_cons_of_mem _ h1
      · intro q hq
        rcases List.mem_cons.1 hq with e | e
        · cases e
          exact absurd rfl hr
        · exact h3 q e

theorem nodup_keys_lowestPidWins (m : NsMap) (pid identifier : Int) (hm : m.keys.Nodup) :
    (lowestPidWins m pid identifier).keys.Nodup := by
  unfold lowestPidWins
  cases m.get identifier with
  | none => exact NsMap.nodup_keys_set m identifier pid hm
  | some v =>
    by_cases hlt : pid < v
    · simpa [hlt] using NsMap.nodup_keys_set m identifier pid hm
    · simpa [hlt] using hm

theorem nodup_keys_foldRecords (recs : List (Int × Int)) (m : NsMap) (hm : m.keys.Nodup) :
    (foldRecords m recs).keys.Nodup := by
  induction recs generalizing m with
  | nil => simpa [foldRecords] using hm
  | cons r rs ih =>
    have := ih (lowestPidWins m r.1 r.2) (nodup_keys_lowestPidWins m r.1 r.2 hm)
    simpa [foldRecords] using this

theorem mem_keys_foldRecords (recs : List (Int × Int)) (m : NsMap) (k : Int) :
    k ∈ (foldRecords m recs).keys ↔ k ∈ m.keys ∨ k ∈ recs.map Prod.snd := by
  have h1 := NsMap.get_eq_none_iff (foldRecords m recs) k
  rw [get_foldRecords, foldl_choose_none, NsMap.get_eq_none_iff] at h1
  constructor
  · intro hk
    by_contra hcon
    push_neg at hcon
    refine h1.1 ⟨hcon.1, ?_⟩ hk
    intro r hr e
    exact hcon.2 (e ▸ List.mem_map_of_mem Prod.snd hr)
  · intro hk
    by_contra hnot
    obtain ⟨h2, h3⟩ := h1.2 hnot
    rcases hk with hk | hk
    · exact h2 hk
    · obtain ⟨r, hr, e⟩ := List.mem_map.1 hk
      exact h3 r hr e

theorem nodup_of_nodup_keys (m : NsMap) (hm : m.keys.Nodup) : m.Nodup :=
  List.Nodup.of_map Prod.fst hm

theorem perm_of_get_eq (m m' : NsMap) (hm : m.keys.Nodup) (hm' : m'.keys.Nodup)
    (h : ∀ k, m.get k = m'.get k) : m.Perm m' := by
  rw [List.perm_ext_iff_of_nodup (nodup_of_nodup_keys m hm) (nodup_of_nodup_keys m' hm')]
  rintro ⟨k, v⟩
  constructor
  · intro hmem
    apply NsMap.mem_of_get
    rw [← h]
    exact NsMap.get_of_mem m hm k v hmem
  · intro hmem
    apply NsMap.mem_of_get
    rw [h]
    exact NsMap.get_of_mem m' hm' k v hmem

theorem mem_parsedRecords (procPaths : List ProcEntry) (pid identifier : Int) :
    (pid, identifier) ∈ parsedRecords procPaths ↔
      ∃ e ∈ procPaths, parseEntry e = Parsed.record pid identifier := by
  unfold parsedRecords
  rw [List.mem_filterMap]
  constructor
  · rintro ⟨e, he, h⟩
    refine ⟨e, he, ?_⟩
    cases hp : parseEntry e with
    | panic => simp [hp] at h
    | skip line => simp [hp] at h
    | record p i =>
      simp only [hp, Option.some.injEq, Prod.mk.injEq] at h
      rw [h.1, h.2]
  · rintro ⟨e, he, h⟩
    exact ⟨e, he, by simp [h]⟩

theorem scanLoop_eq (procPaths : List ProcEntry) (st : ScanState)
    (h : ∀ e ∈ procPaths, parseEntry e ≠ Parsed.panic) :
    scanLoop st procPaths =
      some { m := foldRecords st.m (parsedRecords procPaths),
             log := st.log ++ skipLines procPaths } := by
  induction procPaths generalizing st with
  | nil => simp [scanLoop, foldRecords, parsedRecords, skipLines]
  | cons e es ih =>
    have he := h e (List.mem_cons_self _ _)
    have hes : ∀ x ∈ es, parseEntry x ≠ Parsed.panic :=
      fun x hx => h x (List.mem_cons_of_mem _ hx)
    cases hp : parseEntry e with
    | panic => exact absurd hp he
    | skip line =>
      simp only [scanLoop, loopBody, hp]
      rw [ih _ hes]
      simp [parsedRecords, skipLines, hp, List.filterMap_cons]
    | record p i =>
      simp only [scanLoop, loopBody, hp]
      rw [ih _ hes]
      simp [parsedRecords, skipLines, hp, List.filterMap_cons, foldRecords]

theorem scanLoop_panic (procPaths : List ProcEntry) (st : ScanState)
    (h : ∃ e ∈ procPaths, parseEntry e = Parsed.panic) : scanLoop st procPaths = none := by
  induction procPaths generalizing st with
  | nil =>
    obtain ⟨e, he, _⟩ := h
    simp at he
  | cons e es ih =>
    cases hp : parseEntry e with
    | panic => simp [scanLoop, loopBody, hp]
    | skip line =>
      obtain ⟨x, hx, hxp⟩ := h
      rcases List.mem_cons.1 hx with rfl | hx
      · rw [hp] at hxp
        cases hxp
      · simp only [scanLoop, loopBody, hp]
        exact ih _ ⟨x, hx, hxp⟩
    | record p i =>
      obtain ⟨x, hx, hxp⟩ := h
      rcases List.mem_cons.1 hx with rfl | hx
      · rw [hp] at hxp
        cases hxp
      · simp only [scanLoop, loopBody, hp]
        exact ih _ ⟨x, hx, hxp⟩

theorem skipLines_eq_nil (procPaths : List ProcEntry)
    (h : ∀ e ∈ procPaths, ∃ pid identifier, parseEntry e = Parsed.record pid identifier) :
    skipLines procPaths = [] := by
  unfold skipLines
  rw [List.filterMap_eq_nil_iff]
  intro e he
  obtain ⟨p, i, hp⟩ := h e he
  simp [hp]

theorem getNsMap_eq_of_parsed (procPaths : List ProcEntry)
    (h : ∀ e ∈ procPaths, ∃ pid identifier, parseEntry e = Parsed.record pid identifier) :
    getNsMap (some procPaths) = NsMapResult.ok (foldRecords [] (parsedRecords procPaths)) [] := by
  have hnp : ∀ e ∈ procPaths, parseEntry e ≠ Parsed.panic := by
    intro e he hp
    obtain ⟨p, i, hr⟩ := h e he
    rw [hr] at hp
    cases hp
  simp [getNsMap, scanLoop_eq procPaths _ hnp, skipLines_eq_nil procPaths h]

/-! ## The resolver: claims about `getNsMap` -/

theorem scenario_parses :
    ∀ e ∈ scenario, ∃ pid identifier, parseEntry e = Parsed.record pid identifier := by
  intro e he
  simp only [scenario, List.mem_cons, List.mem_singleton, List.not_mem_nil, or_false] at he
  rcases he with rfl | rfl | rfl
  · exact ⟨10, 100, by decide⟩
  · exact ⟨5, 100, by decide⟩
  · exact ⟨7, 200, by decide⟩

theorem parsedRecords_scenario : parsedRecords scenario = [(10, 100), (5, 100), (7, 200)] := by
  decide

/-- C1: when every scanned path parses to a pid and an identifier, `getNsMap`
returns (without error, nothing logged) a map in which every identifier that
occurs among the records is bound to a pid `p` that is the pid of a record
carrying this identifier and is less than or equal to the pid of every record
carrying it: the minimum. The list is arbitrary, so this holds in whatever
order the records are scanned. -/
theorem getNsMap_lowest_pid (procPaths : List ProcEntry)
    (hparse : ∀ e ∈ procPaths, ∃ pid identifier, parseEntry e = Parsed.record pid identifier) :
    ∃ m, getNsMap (some procPaths) = NsMapResult.ok m [] ∧
      ∀ identifier, identifier ∈ (parsedRecords procPaths).map Prod.snd →
        ∃ p, m.get identifier = some p ∧ (p, identifier) ∈ parsedRecords procPaths ∧
          ∀ q, (q, identifier) ∈ parsedRecords procPaths → p ≤ q := by
  refine ⟨foldRecords [] (parsedRecords procPaths), getNsMap_eq_of_parsed procPaths hparse, ?_⟩
  intro identifier hid
  have hkey : identifier ∈ (foldRecords [] (parsedRecords procPaths)).keys :=
    (mem_keys_foldRecords _ [] identifier).2 (Or.inr hid)
  cases hg : (foldRecords [] (parsedRecords procPaths)).get identifier with
  | none => exact absurd hkey ((NsMap.get_eq_none_iff _ _).1 hg)
  | some p =>
    rw [get_foldRecords] at hg
    obtain ⟨h1, _, h3⟩ := foldl_choose_some identifier _ _ p hg
    refine ⟨p, rfl, ?_, h3⟩
    rcases h1 with h1 | h1
    · simp [NsMap.get] at h1
    · exact h1

/-- C1, the scenario: the records `{pid=10,ns=100}, {pid=5,ns=100},
{pid=7,ns=200}` give exactly `{100:5, 200:7}`. -/
theorem getNsMap_lowest_pid_witness :
    getNsMap (some scenario) = NsMapResult.ok [(100, 5), (200, 7)] [] ∧
      ∃ m, getNsMap (some scenario) = NsMapResult.ok m [] ∧
        ∀ identifier, identifier ∈ (parsedRecords scenario).map Prod.snd →
          ∃ p, m.get identifier = some p ∧ (p, identifier) ∈ parsedRecords scenario ∧
            ∀ q, (q, identifier) ∈ parsedRecords scenario → p ≤ q :=
  ⟨by decide, getNsMap_lowest_pid scenario scenario_parses⟩

/-- C2: when every scanned path parses and no pid occurs with two different
identifiers, the map returned by `getNsMap` has no duplicate key, its keys are
exactly the identifiers seen, its size is the number of distinct identifiers
seen, and two entries with different identifiers have different pids. -/
theorem getNsMap_one_entry_per_identifier (procPaths : List ProcEntry)
    (hparse : ∀ e ∈ procPaths, ∃ pid identifier, parseEntry e = Parsed.record pid identifier)
    (hpid : ∀ pid i1 i2, (pid, i1) ∈ parsedRecords procPaths →
      (pid, i2) ∈ parsedRecords procPaths → i1 = i2) :
    ∃ m, getNsMap (some procPaths) = NsMapResult.ok m [] ∧
      m.keys.Nodup ∧
      (∀ k, k ∈ m.keys ↔ k ∈ (parsedRecords procPaths).map Prod.snd) ∧
      m.length = ((parsedRecords procPaths).map Prod.snd).dedup.length ∧
      ∀ k1 p1 k2 p2, (k1, p1) ∈ m → (k2, p2) ∈ m → k1 ≠ k2 → p1 ≠ p2 := by
  have hnd : (foldRecords [] (parsedRecords procPaths)).keys.Nodup :=
    nodup_keys_foldRecords _ [] (by simp [NsMap.keys])
  have hkeys : ∀ k, k ∈ (foldRecords [] (parsedRecords procPaths)).keys ↔
      k ∈ (parsedRecords procPaths).map Prod.snd := by
    intro k
    rw [mem_keys_foldRecords]
    simp [NsMap.keys]
  have hrec : ∀ k p, (k, p) ∈ foldRecords [] (parsedRecords procPaths) →
      (p, k) ∈ parsedRecords procPaths := by
    intro k p hmem
    have hg := NsMap.get_of_mem _ hnd k p hmem
    rw [get_foldRecords] at hg
    rcases (foldl_choose_some k _ _ p hg).1 with h1 | h1
    · simp [NsMap.get] at h1
    · exact h1
  refine ⟨foldRecords [] (parsedRecords procPaths), getNsMap_eq_of_parsed procPaths hparse,
    hnd, hkeys, ?_, ?_⟩
  · have hperm : (foldRecords [] (parsedRecords procPaths)).keys.Perm
        ((parsedRecords procPaths).map Prod.snd).dedup := by
      rw [List.perm_ext_iff_of_nodup hnd (List.nodup_dedup _)]
      intro k
      rw [hkeys, List.mem_dedup]
    have := hperm.length_eq
    simpa [NsMap.keys] using this
  · intro k1 p1 k2 p2 h1 h2 hne hp
    subst hp
    exact hne (hpid p1 k1 k2 (hrec k1 p1 h1) (hrec k2 p1 h2))

/-- C2 at the scenario: two distinct identifiers, two entries, distinct pids. -/
theorem getNsMap_one_entry_per_identifier_witness :
    ∃ m, getNsMap (some scenario) = NsMapResult.ok m [] ∧
      m.keys.Nodup ∧
      (∀ k, k ∈ m.keys ↔ k ∈ (parsedRecords scenario).map Prod.snd) ∧
      m.length = ((parsedRecords scenario).map Prod.snd).dedup.length ∧
      ∀ k1 p1 k2 p2, (k1, p1) ∈ m → (k2, p2) ∈ m → k1 ≠ k2 → p1 ≠ p2 :=
  getNsMap_one_entry_per_identifier scenario scenario_parses (by
    intro pid i1 i2 h1 h2
    rw [parsedRecords_scenario] at h1 h2
    simp only [List.mem_cons, List.mem_singleton, Prod.mk.injEq, List.not_mem_nil,
      or_false] at h1 h2
    omega)

/-- C3: a namespace reference without a `:` makes `getNsMap` panic at
`strings.Split(identifierStr, ":")[1]`, and one with fewer than two bytes
after the `:` makes it panic at `identifierStr[1 : len(identifierStr)-1]`:
the scan is aborted and no map is returned, although the remaining records
alone give `{100:5, 200:7}`. A reference whose middle part is wrapped in
other bytes than brackets is taken as well formed. -/
theorem getNsMap_panics_on_malformed_link :
    getNsMap (some [procEntry "5" "net:[100]", procEntry "10" "net", procEntry "7" "net:[200]"])
        = NsMapResult.panic ∧
      getNsMap (some [procEntry "5" "net:[100]", procEntry "10" "net:", procEntry "7" "net:[200]"])
        = NsMapResult.panic ∧
      getNsMap (some [procEntry "5" "net:[100]", procEntry "10" "net:[", procEntry "7" "net:[200]"])
        = NsMapResult.panic ∧
      getNsMap (some [procEntry "5" "net:[100]", procEntry "7" "net:[200]"])
        = NsMapResult.ok [(100, 5), (200, 7)] [] ∧
      getNsMap (some [procEntry "5" "net:[100]", procEntry "10" "net:x12y", procEntry "7" "net:[200]"])
        = NsMapResult.ok [(100, 5), (12, 10), (200, 7)] [] := by
  decide

/-- The part of C3 that the code keeps: as long as no reference makes the
parsing panic, `getNsMap` returns without error, every skipped path
(Readlink error, `Atoi` error) adds one log line and no entry, and the map is
the one the parsed records alone produce. -/
theorem getNsMap_eq_of_no_panic (procPaths : List ProcEntry)
    (h : ∀ e ∈ procPaths, parseEntry e ≠ Parsed.panic) :
    getNsMap (some procPaths) =
      NsMapResult.ok (foldRecords [] (parsedRecords procPaths)) (skipLines procPaths) := by
  simp [getNsMap, scanLoop_eq procPaths _ h]

/-- A panic of one path is a panic of `getNsMap`, wherever the path stands. -/
theorem getNsMap_panic (procPaths : List ProcEntry)
    (h : ∃ e ∈ procPaths, parseEntry e = Parsed.panic) :
    getNsMap (some procPaths) = NsMapResult.panic := by
  simp [getNsMap, scanLoop_panic procPaths _ h]

theorem parsedRecords_perm {l l' : List ProcEntry} (h : l.Perm l') :
    (parsedRecords l).Perm (parsedRecords l') :=
  List.Perm.filterMap _ h

/-- C10: the mapping does not depend on the scan order. Folding the
lowest-pid-wins update over a permutation of the records gives a map on which
every identifier looks up the same, and whose entries are the same up to
their order; and `getNsMap` on a permutation of the scanned paths ends the
same way with the same mapping. -/
theorem getNsMap_order_independent (recs recs' : List (Int × Int)) (hrecs : recs.Perm recs')
    (procPaths procPaths' : List ProcEntry) (hpaths : procPaths.Perm procPaths') :
    (∀ k, (foldRecords [] recs).get k = (foldRecords [] recs').get k) ∧
      (foldRecords [] recs).Perm (foldRecords [] recs') ∧
      (getNsMap (some procPaths)).sameMapping (getNsMap (some procPaths')) := by
  have hget : ∀ (a b : List (Int × Int)), a.Perm b →
      ∀ k, (foldRecords [] a).get k = (foldRecords [] b).get k := by
    intro a b hab k
    rw [get_foldRecords, get_foldRecords]
    exact foldl_choose_perm k hab _
  refine ⟨hget recs recs' hrecs, ?_, ?_⟩
  · exact perm_of_get_eq _ _ (nodup_keys_foldRecords _ [] (by simp [NsMap.keys]))
      (nodup_keys_foldRecords _ [] (by simp [NsMap.keys])) (hget recs recs' hrecs)
  · by_cases hp : ∃ e ∈ procPaths, parseEntry e = Parsed.panic
    · have hp' : ∃ e ∈ procPaths', parseEntry e = Parsed.panic := by
        obtain ⟨e, he, h⟩ := hp
        exact ⟨e, hpaths.mem_iff.1 he, h⟩
      rw [getNsMap_panic _ hp, getNsMap_panic _ hp']
      trivial
    · have h1 : ∀ e ∈ procPaths, parseEntry e ≠ Parsed.panic := by
        intro e he h
        exact hp ⟨e, he, h⟩
      have h2 : ∀ e ∈ procPaths', parseEntry e ≠ Parsed.panic := by
        intro e he h
        exact hp ⟨e, hpaths.mem_iff.2 he, h⟩
      rw [getNsMap_eq_of_no_panic _ h1, getNsMap_eq_of_no_panic _ h2]
      exact hget _ _ (parsedRecords_perm hpaths)

/-- C10 at the scenario scanned in two different orders. -/
theorem getNsMap_order_independent_witness :
    (∀ k, (foldRecords [] [(10, 100), (5, 100), (7, 200)]).get k
        = (foldRecords [] [(7, 200), (5, 100), (10, 100)]).get k) ∧
      (foldRecords [] [(10, 100), (5, 100), (7, 200)]).Perm
        (foldRecords [] [(7, 200), (5, 100), (10, 100)]) ∧
      (getNsMap (some scenario)).sameMapping (getNsMap (some scenario.reverse)) :=
  getNsMap_order_independent _ _ (by decide) _ _ (List.reverse_perm scenario).symm

/-! ## Parsing the kernel's `net:[N]` -/

theorem stringsSplit_of_not_mem (sep : UInt8) (s : GoString) (h : sep ∉ s) :
    stringsSplit sep s = [s] := by
  induction s with
  | nil => rfl
  | cons c cs ih =>
    have hc : ¬ c = sep := fun e => h (e ▸ List.mem_cons_self _ _)
    have hcs : sep ∉ cs := fun e => h (List.mem_cons_of_mem _ e)
    simp [stringsSplit, hc, ih hcs]

theorem stringsSplit_append (sep : UInt8) (p rest : GoString) (h : sep ∉ p) :
    stringsSplit sep (p ++ sep :: rest) = p :: stringsSplit sep rest := by
  induction p with
  | nil => simp [stringsSplit]
  | cons c cs ih =>
    have hc : ¬ c = sep := fun e => h (e ▸ List.mem_cons_self _ _)
    have hcs : sep ∉ cs := fun e => h (List.mem_cons_of_mem _ e)
    simp [stringsSplit, hc, ih hcs]

theorem toNat_digit (d : Nat) (hd : d < 10) : (UInt8.ofNat (48 + d)).toNat = 48 + d := by
  have : (UInt8.ofNat (48 + d)).toNat = (48 + d) % 256 := rfl
  rw [this]
  omega

theorem isDigit_of_mem_decimal (n : Nat) (c : UInt8) (hc : c ∈ decimal n) :
    isDigit c = true := by
  unfold decimal at hc
  by_cases h0 : n = 0
  · simp only [h0, if_true, List.mem_singleton] at hc
    subst hc
    decide
  · simp only [h0, if_false, List.mem_map, List.mem_reverse] at hc
    obtain ⟨d, hd, rfl⟩ := hc
    have hlt : d < 10 := Nat.digits_lt_base (by norm_num) hd
    simp [isDigit, toNat_digit d hlt]
    omega

theorem decimal_ne_nil (n : Nat) : decimal n ≠ [] := by
  unfold decimal
  by_cases h0 : n = 0
  · simp [h0]
  · simp [h0, Nat.digits_ne_nil_iff_ne_zero]

theorem digitsValue_digits (l : List Nat) (hl : ∀ d ∈ l, d < 10) :
    digitsValue (l.reverse.map fun d => UInt8.ofNat (48 + d)) = Nat.ofDigits 10 l := by
  unfold digitsValue
  rw [List.foldl_map, List.foldl_reverse]
  induction l with
  | nil => simp [Nat.ofDigits]
  | cons d ds ih =>
    have hd : d < 10 := hl d (List.mem_cons_self _ _)
    have hds : ∀ x ∈ ds, x < 10 := fun x hx => hl x (List.mem_cons_of_mem _ hx)
    rw [List.foldr_cons, ih hds, Nat.ofDigits_cons, toNat_digit d hd]
    simp
    omega

theorem digitsValue_decimal (n : Nat) : digitsValue (decimal n) = n := by
  unfold decimal
  by_cases h0 : n = 0
  · subst h0
    decide
  · simp only [h0, if_false]
    rw [digitsValue_digits _ (fun d hd => Nat.digits_lt_base (by norm_num) hd),
      Nat.ofDigits_digits]

theorem Atoi_decimal (n : Nat) (hn : (n : Int) ≤ maxInt) : Atoi (decimal n) = some (n : Int) := by
  have hne := decimal_ne_nil n
  have hdig : ∀ c ∈ decimal n, isDigit c = true := isDigit_of_mem_decimal n
  have hhead : ¬ ((decimal n).head? = some 45 ∨ (decimal n).head? = some 43) := by
    cases hd : decimal n with
    | nil => exact absurd hd hne
    | cons c cs =>
      have hc := hdig c (hd ▸ List.mem_cons_self _ _)
      simp only [List.head?_cons, Option.some.injEq]
      rintro (e | e) <;> (subst e; revert hc; decide)
  have hneg : ¬ ((decimal n).head? = some 45) := fun e => hhead (Or.inl e)
  have hpos : ¬ ((decimal n).head? = some 43) := fun e => hhead (Or.inr e)
  have hmin : minInt ≤ (n : Int) := by
    have : minInt ≤ 0 := by decide
    omega
  simp [Atoi, hneg, hpos, hne, digitsValue_decimal, hmin, hn]
  exact hdig

theorem sliceStr_brackets (d : GoString) :
    sliceStr (goStr "[" ++ d ++ goStr "]") 1
      (((goStr "[" ++ d ++ goStr "]").length : Int) - 1) = some d := by
  have h1 : goStr "[" = [91] := by decide
  have h2 : goStr "]" = [93] := by decide
  rw [h1, h2]
  have hlen : (([91] ++ d ++ [93] : GoString).length : Int) - 1 = (d.length : Int) + 1 := by
    simp
  rw [hlen]
  unfold sliceStr
  have hc : (0 : Int) ≤ 1 ∧ (1 : Int) ≤ (d.length : Int) + 1 ∧
      (d.length : Int) + 1 ≤ (([91] ++ d ++ [93] : GoString).length : Int) := by
    simp
  rw [if_pos hc]
  have e1 : ((d.length : Int) + 1).toNat - (1 : Int).toNat = d.length := by
    have : ((d.length : Int) + 1).toNat = d.length + 1 := by omega
    rw [this]
    simp
  rw [e1]
  simp

theorem split_netLink (n : Nat) :
    (stringsSplit 58 (netLink n))[1]? = some (goStr "[" ++ decimal n ++ goStr "]") := by
  have hnot : (58 : UInt8) ∉ goStr "[" ++ decimal n ++ goStr "]" := by
    have h1 : goStr "[" = [91] := by decide
    have h2 : goStr "]" = [93] := by decide
    rw [h1, h2]
    intro hmem
    simp only [List.mem_append, List.mem_singleton] at hmem
    rcases hmem with (e | e) | e
    · revert e
      decide
    · have := isDigit_of_mem_decimal n 58 e
      revert this
      decide
    · revert e
      decide
  have hsplit : netLink n = goStr "net" ++ 58 :: (goStr "[" ++ decimal n ++ goStr "]") := by
    have h0 : goStr "net:[" = goStr "net" ++ 58 :: goStr "[" := by decide
    simp [netLink, h0]
  have hnet : (58 : UInt8) ∉ goStr "net" := by decide
  rw [hsplit, stringsSplit_append _ _ _ hnet, stringsSplit_of_not_mem _ _ hnot]
  rfl

/-- C9: for every `N ≥ 0` that fits in an `int`, on the reference `net:[N]`
(decimal `N`) the second piece of the split on `:` is `[N]`, the slice that
drops its first and last byte is the decimal digits of `N`, `Atoi` of these
digits is `N`, and so a path whose pid parses to `pid` is parsed by
`getNsMap` to the record `(pid, N)` and alone gives the map `{N: pid}`. -/
theorem getNsMap_parses_netLink (n : Nat) (hn : (n : Int) ≤ maxInt) :
    (stringsSplit 58 (netLink n))[1]? = some (goStr "[" ++ decimal n ++ goStr "]") ∧
      sliceStr (goStr "[" ++ decimal n ++ goStr "]") 1
        (((goStr "[" ++ decimal n ++ goStr "]").length : Int) - 1) = some (decimal n) ∧
      Atoi (decimal n) = some (n : Int) ∧
      ∀ procPath pid, Atoi (filepathSplit procPath).2 = some pid →
        parseEntry { procPath := procPath, nsLink := some (netLink n) }
            = Parsed.record pid (n : Int) ∧
          getNsMap (some [{ procPath := procPath, nsLink := some (netLink n) }])
            = NsMapResult.ok [((n : Int), pid)] [] := by
  have h1 := split_netLink n
  have h2 := sliceStr_brackets (decimal n)
  have h3 := Atoi_decimal n hn
  refine ⟨h1, h2, h3, ?_⟩
  intro procPath pid hpid
  have hp : parseEntry { procPath := procPath, nsLink := some (netLink n) }
      = Parsed.record pid (n : Int) := by
    simp only [parseEntry, h1, h2, hpid, h3]
  refine ⟨hp, ?_⟩
  simp [getNsMap, scanLoop, loopBody, hp, lowestPidWins, NsMap.get, NsMap.set]

/-- C9 at the initial network namespace of a Linux host, `net:[4026531992]`,
read for pid 1. -/
theorem getNsMap_parses_netLink_witness :
    netLink 4026531992 = goStr "net:[4026531992]" ∧
      ((4026531992 : Nat) : Int) ≤ maxInt ∧
      parseEntry { procPath := goStr "/proc/1", nsLink := some (netLink 4026531992) }
        = Parsed.record 1 4026531992 :=
  ⟨by simp [netLink, decimal]; decide, by decide,
    ((getNsMap_parses_netLink 4026531992 (by decide)).2.2.2 (goStr "/proc/1") 1
      (by decide)).1⟩

/-! ## The monitor task: claims about `getInterfaces` -/

theorem loopStep_of_returned (identifier : Int) (t : Task) (e : SelectEnv)
    (h : t.returned = true) : loopStep identifier t e = t := by
  simp [loopStep, h]

theorem foldl_loopStep_of_returned (identifier : Int) (sched : List SelectEnv) (t : Task)
    (h : t.returned = true) : sched.foldl (loopStep identifier) t = t := by
  induction sched with
  | nil => rfl
  | cons e es ih => rw [List.foldl_cons, loopStep_of_returned identifier t e h, ih]

theorem loopStep_done (identifier : Int) (t : Task) (e : SelectEnv)
    (h : t.returned = false) (hb : selectBranch e = Branch.done) :
    loopStep identifier t e =
      { trace := t.trace ++ [Ev.recvDone] ++ t.defers, defers := [], returned := true } := by
  simp [loopStep, h, hb, Task.ret]

theorem loopStep_tick (identifier : Int) (t : Task) (e : SelectEnv)
    (h : t.returned = false) (hb : selectBranch e = Branch.tick) :
    loopStep identifier t e =
      { trace := t.trace ++ [Ev.recvTimer, Ev.interfaces] ++
          (if e.listOk then [Ev.logInterfaces identifier] else []) ++ [Ev.newTimer sleepTime],
        defers := t.defers, returned := false } := by
  cases hl : e.listOk <;> simp [loopStep, h, hb, hl]

theorem loopStep_blocked (identifier : Int) (t : Task) (e : SelectEnv)
    (hb : selectBranch e = Branch.blocked) : loopStep identifier t e = t := by
  by_cases h : t.returned = true <;> simp [loopStep, h, hb]

theorem closeCount_append (a b : List Ev) : closeCount (a ++ b) = closeCount a + closeCount b := by
  simp [closeCount, List.countP_append]

theorem wellFormed_loopStep (handle : NsHandle) (identifier : Int) (t : Task) (e : SelectEnv)
    (h : t.wellFormed handle) : (loopStep identifier t e).wellFormed handle := by
  rcases h with ⟨hr, hd, hc⟩ | ⟨hr, hd, hpre⟩
  · cases hb : selectBranch e with
    | blocked =>
      rw [loopStep_blocked identifier t e hb]
      exact Or.inl ⟨hr, hd, hc⟩
    | done =>
      rw [loopStep_done identifier t e hr hb]
      refine Or.inr ⟨rfl, rfl, t.trace, ?_, hc⟩
      simp [hd]
    | tick =>
      rw [loopStep_tick identifier t e hr hb]
      refine Or.inl ⟨rfl, hd, ?_⟩
      cases e.listOk <;> simp [closeCount_append, hc] <;> simp [closeCount, Ev.isClose]
  · rw [loopStep_of_returned identifier t e hr]
    exact Or.inr ⟨hr, hd, hpre⟩

theorem wellFormed_foldl (handle : NsHandle) (identifier : Int) (sched : List SelectEnv)
    (t : Task) (h : t.wellFormed handle) :
    (sched.foldl (loopStep identifier) t).wellFormed handle := by
  induction sched generalizing t with
  | nil => exact h
  | cons e es ih => exact ih _ (wellFormed_loopStep handle identifier t e h)

theorem returned_foldl_iff (identifier : Int) (sched : List SelectEnv) (t : Task) :
    (sched.foldl (loopStep identifier) t).returned = true ↔
      t.returned = true ∨ ∃ e ∈ sched, selectBranch e = Branch.done := by
  induction sched generalizing t with
  | nil => simp
  | cons e es ih =>
    rw [List.foldl_cons, ih]
    by_cases hr : t.returned = true
    · simp [loopStep_of_returned identifier t e hr, hr]
    · have hr' : t.returned = false := by simpa using hr
      cases hb : selectBranch e with
      | blocked => simp [loopStep_blocked identifier t e hb, hr', hb]
      | done => simp [loopStep_done identifier t e hr' hb, hb]
      | tick => simp [loopStep_tick identifier t e hr' hb, hr', hb]

theorem getInterfaces_eq_foldl (handle : NsHandle) (identifier : Int) (sched : List SelectEnv) :
    getInterfaces true handle identifier sched =
      sched.foldl (loopStep identifier)
        { trace := [Ev.lockOSThread, Ev.setNs handle, Ev.newTimer sleepTime],
          defers := [Ev.close handle, Ev.unlockOSThread], returned := false } := by
  simp [getInterfaces]

theorem getInterfaces_append (handle : NsHandle) (identifier : Int)
    (pre post : List SelectEnv) :
    getInterfaces true handle identifier (pre ++ post) =
      post.foldl (loopStep identifier) (getInterfaces true handle identifier pre) := by
  rw [getInterfaces_eq_foldl, getInterfaces_eq_foldl, List.foldl_append]

/-- C5: a task whose `netns.Set` succeeds closes its handle exactly once, at
its end, whatever the `select`s meet. While it is in the loop nothing is
closed and `Close` is pending as a deferred call; it returns exactly when some
`select` takes `ctx.Done()`; once it has returned (also when the cancellation
came during a tick and is seen by the next `select`) its trace ends with the
receive from `ctx.Done()`, one `handle.Close()` and the thread unlock, with no
`Close` before; the number of `Close` calls is 1 after the return and 0
before. -/
theorem getInterfaces_closes_once (handle : NsHandle) (identifier : Int)
    (sched : List SelectEnv) :
    closeCount (getInterfaces true handle identifier sched).trace
        = (if (getInterfaces true handle identifier sched).returned then 1 else 0) ∧
      ((getInterfaces true handle identifier sched).returned = true ↔
        ∃ e ∈ sched, selectBranch e = Branch.done) ∧
      ((getInterfaces true handle identifier sched).returned = false →
        (getInterfaces true handle identifier sched).defers
          = [Ev.close handle, Ev.unlockOSThread]) ∧
      ((getInterfaces true handle identifier sched).returned = true →
        (getInterfaces true handle identifier sched).defers = [] ∧
        ∃ pre, (getInterfaces true handle identifier sched).trace
            = pre ++ [Ev.recvDone, Ev.close handle, Ev.unlockOSThread] ∧
          closeCount pre = 0) := by
  have hwf : (getInterfaces true handle identifier sched).wellFormed handle := by
    rw [getInterfaces_eq_foldl]
    apply wellFormed_foldl
    refine Or.inl ⟨rfl, rfl, ?_⟩
    simp [closeCount, Ev.isClose]
  have hret : (getInterfaces true handle identifier sched).returned = true ↔
      ∃ e ∈ sched, selectBranch e = Branch.done := by
    rw [getInterfaces_eq_foldl, returned_foldl_iff]
    simp
  refine ⟨?_, hret, ?_, ?_⟩
  · rcases hwf with ⟨hr, _, hc⟩ | ⟨hr, _, pre, hpre, hc⟩
    · simp [hr, hc]
    · rw [hpre, closeCount_append]
      simp [hr, hc]
      simp [closeCount, Ev.isClose]
  · intro hr
    rcases hwf with ⟨_, hd, _⟩ | ⟨hr', _, _⟩
    · exact hd
    · rw [hr] at hr'
      cases hr'
  · intro hr
    rcases hwf with ⟨hr', _, _⟩ | ⟨_, hd, hpre⟩
    · rw [hr] at hr'
      cases hr'
    · exact ⟨hd, hpre⟩

/-- C6: when `netns.Set` fails the task logs the error and returns at once,
before `defer handle.Close()` is reached: no tick is performed, the thread is
unlocked, and the handle is not closed. -/
theorem getInterfaces_set_fails_leaves_handle_open (handle : NsHandle) (identifier : Int)
    (sched : List SelectEnv) :
    getInterfaces false handle identifier sched =
        { trace := [Ev.lockOSThread, Ev.setNs handle, Ev.logSetErr, Ev.unlockOSThread],
          defers := [], returned := true } ∧
      closeCount (getInterfaces false handle identifier sched).trace = 0 ∧
      tickCount (getInterfaces false handle identifier sched).trace = 0 := by
  have h : getInterfaces false handle identifier sched =
      { trace := [Ev.lockOSThread, Ev.setNs handle, Ev.logSetErr, Ev.unlockOSThread],
        defers := [], returned := true } := by
    simp [getInterfaces, Task.ret]
  rw [h]
  refine ⟨rfl, ?_, ?_⟩
  · simp [closeCount, Ev.isClose]
  · simp [tickCount]

/-- C7 fails: at a `select` that finds `ctx.Done()` ready and the timer ready
as well, Go may take the timer case, and the task then lists and logs the
interfaces although the cancellation has already fired. So it is not true
that a `select` at which `ctx.Done()` is ready never runs the tick branch,
nor that no tick branch runs at the steps after such a `select` (the new
timer may have fired again by the next `select`). -/
theorem getInterfaces_tick_after_cancel :
    bothReadyPickTimer.doneReady = true ∧
      getInterfaces true 3 100 [bothReadyPickTimer] =
        { trace := [Ev.lockOSThread, Ev.setNs 3, Ev.newTimer 3000000000, Ev.recvTimer,
            Ev.interfaces, Ev.logInterfaces 100, Ev.newTimer 3000000000],
          defers := [Ev.close 3, Ev.unlockOSThread], returned := false } ∧
      tickCount (getInterfaces true 3 100 []).trace = 0 ∧
      tickCount (getInterfaces true 3 100 [bothReadyPickTimer]).trace = 1 ∧
      ¬ (∀ (handle : NsHandle) (identifier : Int) (pre post : List SelectEnv) (e : SelectEnv),
          e.doneReady = true →
          tickCount (getInterfaces true handle identifier (pre ++ e :: post)).trace
            = tickCount (getInterfaces true handle identifier pre).trace) ∧
      ¬ (∀ (handle : NsHandle) (identifier : Int) (pre post : List SelectEnv) (e : SelectEnv),
          e.doneReady = true →
          tickCount (getInterfaces true handle identifier (pre ++ e :: post)).trace
            = tickCount (getInterfaces true handle identifier (pre ++ [e])).trace) := by
  refine ⟨rfl, by decide, by decide, by decide, ?_, ?_⟩
  · intro h
    have := h 3 100 [] [] bothReadyPickTimer rfl
    revert this
    decide
  · intro h
    have := h 3 100 [] [bothReadyPickTimer] bothReadyPickTimer rfl
    revert this
    decide

/-- C7 amended: if a `select` finds `ctx.Done()` ready and either the timer is
not ready or the random choice falls on `ctx.Done()`, the task returns at this
`select`: the tick branch is executed neither at this step nor at any later
one, and nothing at all is done after the deferred calls. -/
theorem getInterfaces_no_tick_after_done (handle : NsHandle) (identifier : Int)
    (pre post : List SelectEnv) (e : SelectEnv)
    (hdone : e.doneReady = true) (hpick : e.timerReady = false ∨ e.pickDone = true) :
    selectBranch e = Branch.done ∧
      (getInterfaces true handle identifier (pre ++ e :: post)).returned = true ∧
      getInterfaces true handle identifier (pre ++ e :: post)
        = getInterfaces true handle identifier (pre ++ [e]) ∧
      tickCount (getInterfaces true handle identifier (pre ++ e :: post)).trace
        = tickCount (getInterfaces true handle identifier pre).trace := by
  have hb : selectBranch e = Branch.done := by
    rcases hpick with h | h <;> cases ht : e.timerReady <;> simp_all [selectBranch]
  have hret : (getInterfaces true handle identifier (pre ++ [e])).returned = true := by
    rw [getInterfaces_eq_foldl, returned_foldl_iff]
    exact Or.inr ⟨e, by simp, hb⟩
  have heq : getInterfaces true handle identifier (pre ++ e :: post)
      = getInterfaces true handle identifier (pre ++ [e]) := by
    have : pre ++ e :: post = (pre ++ [e]) ++ post := by simp
    rw [this, getInterfaces_append, foldl_loopStep_of_returned _ _ _ hret]
  refine ⟨hb, heq ▸ hret, heq, ?_⟩
  rw [heq, getInterfaces_append, List.foldl_cons, List.foldl_nil]
  by_cases hr : (getInterfaces true handle identifier pre).returned = true
  · rw [loopStep_of_returned _ _ _ hr]
  · have hr' : (getInterfaces true handle identifier pre).returned = false := by simpa using hr
    have hwf : (getInterfaces true handle identifier pre).wellFormed handle := by
      rw [getInterfaces_eq_foldl]
      apply wellFormed_foldl
      refine Or.inl ⟨rfl, rfl, ?_⟩
      simp [closeCount, Ev.isClose]
    rcases hwf with ⟨_, hd, _⟩ | ⟨hr2, _, _⟩
    · rw [loopStep_done _ _ _ hr' hb, hd]
      simp [tickCount]
    · rw [hr'] at hr2
      cases hr2

/-- C7 amended, at a task that ticked once and then meets a `select` where
only `ctx.Done()` is ready; a later ready timer changes nothing. -/
theorem getInterfaces_no_tick_after_done_witness :
    selectBranch onlyDoneReady = Branch.done ∧
      (getInterfaces true 3 100
        ([tickListingFails] ++ onlyDoneReady :: [bothReadyPickTimer])).returned = true ∧
      getInterfaces true 3 100 ([tickListingFails] ++ onlyDoneReady :: [bothReadyPickTimer])
        = getInterfaces true 3 100 ([tickListingFails] ++ [onlyDoneReady]) ∧
      tickCount (getInterfaces true 3 100
          ([tickListingFails] ++ onlyDoneReady :: [bothReadyPickTimer])).trace
        = tickCount (getInterfaces true 3 100 [tickListingFails]).trace :=
  getInterfaces_no_tick_after_done 3 100 [tickListingFails] [bothReadyPickTimer] onlyDoneReady
    rfl (Or.inl rfl)

/-- C8: on a tick whose `net.Interfaces()` returns an error the task
writes nothing to the log, although the claim asks for a diagnostic and every
other error site of the program logs: the only log call of the tick, line 77,
sits under `if err == nil`. The task does stay in the loop and re-arms the
timer with 3 seconds. -/
theorem getInterfaces_listing_failure_not_logged :
    selectBranch tickListingFails = Branch.tick ∧ tickListingFails.listOk = false ∧
      getInterfaces true 3 100 [tickListingFails] =
        { trace := [Ev.lockOSThread, Ev.setNs 3, Ev.newTimer 3000000000, Ev.recvTimer,
            Ev.interfaces, Ev.newTimer 3000000000],
          defers := [Ev.close 3, Ev.unlockOSThread], returned := false } ∧
      (getInterfaces true 3 100 [tickListingFails]).trace.filter Ev.isLog = [] := by
  decide

/-- The part of C8 that the code keeps: on a tick of an active task on which
the listing fails, the task stays in the loop with its deferred calls, the
timer is re-armed with the same 3 seconds, and the next tick is served. What
the task does on such a tick is: receive from the timer, call
`net.Interfaces()`, create the new timer. -/
theorem getInterfaces_listing_failure_keeps_looping (handle : NsHandle) (identifier : Int)
    (pre : List SelectEnv) (e : SelectEnv)
    (hactive : (getInterfaces true handle identifier pre).returned = false)
    (htick : selectBranch e = Branch.tick) (hfail : e.listOk = false) :
    (getInterfaces true handle identifier (pre ++ [e])).trace
        = (getInterfaces true handle identifier pre).trace
          ++ [Ev.recvTimer, Ev.interfaces, Ev.newTimer 3000000000] ∧
      (getInterfaces true handle identifier (pre ++ [e])).returned = false ∧
      (getInterfaces true handle identifier (pre ++ [e])).defers
        = (getInterfaces true handle identifier pre).defers ∧
      ∀ e2, selectBranch e2 = Branch.tick →
        tickCount (getInterfaces true handle identifier (pre ++ [e] ++ [e2])).trace
          = tickCount (getInterfaces true handle identifier pre).trace + 2 := by
  have hstep : getInterfaces true handle identifier (pre ++ [e]) =
      { trace := (getInterfaces true handle identifier pre).trace
          ++ [Ev.recvTimer, Ev.interfaces, Ev.newTimer 3000000000],
        defers := (getInterfaces true handle identifier pre).defers, returned := false } := by
    rw [getInterfaces_append, List.foldl_cons, List.foldl_nil, loopStep_tick _ _ _ hactive htick]
    simp [hfail, sleepTime]
  refine ⟨by rw [hstep], by rw [hstep], by rw [hstep], ?_⟩
  intro e2 h2
  rw [getInterfaces_append, List.foldl_cons, List.foldl_nil,
    loopStep_tick _ _ _ (by rw [hstep]) h2, hstep]
  cases e2.listOk <;> simp [tickCount, List.count_append]

/-- The loop goes on after a failing listing at the first tick of a task. -/
theorem getInterfaces_listing_failure_keeps_looping_witness :
    (getInterfaces true 3 100 ([] ++ [tickListingFails])).trace
        = (getInterfaces true 3 100 []).trace
          ++ [Ev.recvTimer, Ev.interfaces, Ev.newTimer 3000000000] ∧
      (getInterfaces true 3 100 ([] ++ [tickListingFails])).returned = false ∧
      (getInterfaces true 3 100 ([] ++ [tickListingFails])).defers
        = (getInterfaces true 3 100 []).defers ∧
      ∀ e2, selectBranch e2 = Branch.tick →
        tickCount (getInterfaces true 3 100 ([] ++ [tickListingFails] ++ [e2])).trace
          = tickCount (getInterfaces true 3 100 []).trace + 2 :=
  getInterfaces_listing_failure_keeps_looping 3 100 [] tickListingFails rfl rfl rfl

/-! ## The supervisor: the loop of `main` -/

theorem foldl_superviseStep (getFromPid : Int → Option NsHandle) (m : NsMap) (s : Supervisor) :
    m.foldl (superviseStep getFromPid) s =
      { failed := s.failed ++ m.filter (fun entry => (getFromPid entry.2).isNone),
        started := s.started ++
          m.filterMap (fun entry => (getFromPid entry.2).map fun h => (entry.1, h)) } := by
  induction m generalizing s with
  | nil => simp
  | cons entry rest ih =>
    rw [List.foldl_cons, ih]
    cases hg : getFromPid entry.2 with
    | none => simp [superviseStep, hg, List.filterMap_cons, List.filter_cons]
    | some h => simp [superviseStep, hg, List.filterMap_cons, List.filter_cons]

theorem mem_started (getFromPid : Int → Option NsHandle) (m : NsMap)
    (identifier : Int) (handle : NsHandle) :
    (identifier, handle) ∈
        m.filterMap (fun entry => (getFromPid entry.2).map fun h => (entry.1, h)) ↔
      ∃ pid, (identifier, pid) ∈ m ∧ getFromPid pid = some handle := by
  rw [List.mem_filterMap]
  constructor
  · rintro ⟨⟨k, pid⟩, hmem, h⟩
    cases hg : getFromPid pid with
    | none => simp [hg] at h
    | some h' =>
      simp only [hg, Option.map_some', Option.some.injEq, Prod.mk.injEq] at h
      obtain ⟨rfl, rfl⟩ := h
      exact ⟨pid, hmem, hg⟩
  · rintro ⟨pid, hmem, hg⟩
    exact ⟨(identifier, pid), hmem, by simp [hg]⟩

theorem started_keys_sublist (getFromPid : Int → Option NsHandle) (m : NsMap) :
    List.Sublist
      ((m.filterMap (fun entry => (getFromPid entry.2).map fun h => (entry.1, h))).map Prod.fst)
      m.keys := by
  induction m with
  | nil => simp [NsMap.keys]
  | cons entry rest ih =>
    cases hg : getFromPid entry.2 with
    | none =>
      simp only [List.filterMap_cons, hg, Option.map_none', NsMap.keys, List.map_cons]
      exact List.Sublist.cons _ ih
    | some h =>
      simp only [List.filterMap_cons, hg, Option.map_some', NsMap.keys, List.map_cons]
      exact List.Sublist.cons₂ _ ih

/-- C4: the loop of `main` starts exactly the monitors of the entries whose
handle acquisition succeeds. The `go` statements executed are, in visiting
order, one `(identifier, handle)` for each entry whose `GetFromPid` succeeds,
with the handle obtained from the pid of that very entry; the entries whose
acquisition fails are logged and start nothing; no identifier gets two
monitors; each successful entry has exactly one monitor; and this loop is
what `main` runs on the map returned by `getNsMap`. -/
theorem main_starts_monitors_of_acquired_handles (getFromPid : Int → Option NsHandle)
    (m : NsMap) (hm : m.keys.Nodup) :
    (superviseLoop getFromPid m).started
        = m.filterMap (fun entry => (getFromPid entry.2).map fun h => (entry.1, h)) ∧
      (superviseLoop getFromPid m).failed
        = m.filter (fun entry => (getFromPid entry.2).isNone) ∧
      (∀ identifier handle, (identifier, handle) ∈ (superviseLoop getFromPid m).started ↔
        ∃ pid, (identifier, pid) ∈ m ∧ getFromPid pid = some handle) ∧
      ((superviseLoop getFromPid m).started.map Prod.fst).Nodup ∧
      (∀ identifier pid, (identifier, pid) ∈ m → getFromPid pid = none →
        identifier ∉ (superviseLoop getFromPid m).started.map Prod.fst) ∧
      (∀ identifier pid handle, (identifier, pid) ∈ m → getFromPid pid = some handle →
        (identifier, handle) ∈ (superviseLoop getFromPid m).started ∧
        ((superviseLoop getFromPid m).started.map Prod.fst).count identifier = 1) ∧
      (∀ glob log, getNsMap glob = NsMapResult.ok m log →
        main glob getFromPid
          = MainResult.supervising m.length (superviseLoop getFromPid m)) := by
  have hloop : superviseLoop getFromPid m =
      { failed := m.filter (fun entry => (getFromPid entry.2).isNone),
        started := m.filterMap (fun entry => (getFromPid entry.2).map fun h => (entry.1, h)) } := by
    simp [superviseLoop, foldl_superviseStep]
  have hnd : ((m.filterMap (fun entry => (getFromPid entry.2).map fun h => (entry.1, h))).map
      Prod.fst).Nodup := List.Nodup.sublist (started_keys_sublist getFromPid m) hm
  have hmain : ∀ glob log, getNsMap glob = NsMapResult.ok m log →
      main glob getFromPid = MainResult.supervising m.length (superviseLoop getFromPid m) := by
    intro glob log h
    simp [main, h]
  refine ⟨by rw [hloop], by rw [hloop], ?_, ?_, ?_, ?_, hmain⟩ <;> rw [hloop]
  · exact fun identifier handle => mem_started getFromPid m identifier handle
  · exact hnd
  · intro identifier pid hmem hnone hin
    obtain ⟨⟨k, h⟩, hkh, hk⟩ := List.mem_map.1 hin
    simp only at hk
    subst hk
    obtain ⟨pid', hmem', hsome⟩ := (mem_started getFromPid m k h).1 hkh
    have e1 := NsMap.get_of_mem m hm k pid hmem
    have e2 := NsMap.get_of_mem m hm k pid' hmem'
    rw [e1] at e2
    simp only [Option.some.injEq] at e2
    subst e2
    rw [hnone] at hsome
    cases hsome
  · intro identifier pid handle hmem hsome
    have hin := (mem_started getFromPid m identifier handle).2 ⟨pid, hmem, hsome⟩
    exact ⟨hin, List.count_eq_one_of_mem hnd (List.mem_map_of_mem Prod.fst hin)⟩

/-- C4 at the map of the scenario, when the representative pid 5 of namespace
100 has disappeared: only namespace 200 is monitored, with the handle got from
its pid 7. -/
theorem main_starts_monitors_of_acquired_handles_witness :
    main (some scenario) getFromPidExcept5
        = MainResult.supervising 2 { failed := [(100, 5)], started := [(200, 8)] } ∧
      (superviseLoop getFromPidExcept5 [(100, 5), (200, 7)]).started = [(200, 8)] ∧
      ∀ identifier pid, (identifier, pid) ∈ ([(100, 5), (200, 7)] : NsMap) →
        getFromPidExcept5 pid = none →
        identifier ∉ (superviseLoop getFromPidExcept5 [(100, 5), (200, 7)]).started.map Prod.fst :=
  ⟨by decide,
    (main_starts_monitors_of_acquired_handles getFromPidExcept5 [(100, 5), (200, 7)]
      (by decide)).1.trans (by decide),
    (main_starts_monitors_of_acquired_handles getFromPidExcept5 [(100, 5), (200, 7)]
      (by decide)).2.2.2.2.1⟩

end Netns
